import Mathlib

/-!
Verification of the news-to-player linking and incremental merge engine of
the n17-dash repository, embedded shallowly from the Python sources
`backend/app/services/llm_service.py` and `backend/football_api.py`.

Conventions of the embedding:
* JSON dicts become Lean structures; a key that may be absent becomes an
  `Option` field.
* Python floats in the fuzzy-match scorer are represented in hundredths
  (`0.6` becomes `60`); every policy constant in the source is a multiple
  of `0.05`, and every comparison in the source compares such constants,
  so the integer representation is exact.
* `datetime.now()` becomes an explicit `now : String` argument, and the
  external collaborators (OpenAI oracle, football API, file system) become
  explicit function arguments, threaded exactly where the source consults
  them.
-/

namespace N17

/-!
The string primitives are implemented structurally over `List Char`
(rather than through the byte-position loops of the core `String`
functions) so that every definition in this file evaluates inside the
kernel; each matches the Python primitive it names.
-/

/-- Python's `str.lower()` (ASCII case folding, which covers every string
the source compares). -/
def pyLower (s : String) : String :=
  String.mk (s.toList.map Char.toLower)

/-- Python's `str.strip()`: drop leading and trailing whitespace. -/
def pyTrim (s : String) : String :=
  String.mk
    (((s.toList.dropWhile Char.isWhitespace).reverse.dropWhile
        Char.isWhitespace).reverse)

/-- Python's slicing `s[n:]` by characters. -/
def pyDrop (n : Nat) (s : String) : String :=
  String.mk (s.toList.drop n)

/-- Python's `s[0]` on a string already checked to be non-empty. -/
def pyFront (s : String) : Char :=
  match s.toList with
  | [] => default
  | c :: _ => c

/-- Python's `str.startswith`. -/
def pyStartsWith (s pre : String) : Bool :=
  pre.toList.isPrefixOf s.toList

/-- Splitting a character list at spaces (keeping empty chunks). -/
def splitOnSpace : List Char → List (List Char)
  | [] => [[]]
  | c :: t =>
    match splitOnSpace t with
    | [] => [[]]
    | cur :: rest =>
      if c = ' ' then [] :: cur :: rest else (c :: cur) :: rest

/-- Python's `str.split()` (no separator): split on whitespace runs and
drop the empty tokens.  (The source only ever feeds it space-separated
names.) -/
def pySplit (s : String) : List String :=
  ((splitOnSpace s.toList).map String.mk).filter (fun t => t ≠ ("" : String))

/-- Python's substring test `a in b`, on the character lists. -/
def pyIn (a b : String) : Bool :=
  (b.toList.tails).any (fun t => a.toList.isPrefixOf t)

/-- The nickname table of `LLMService._normalize_player_name`
(llm_service.py lines 87-102). -/
def nameVariations : List (String × String) :=
  [("dan", "daniel"), ("danny", "daniel"), ("mike", "michael"),
   ("micky", "michael"), ("alex", "alexander"), ("rob", "robert"),
   ("bob", "robert"), ("jim", "james"), ("jimmy", "james"),
   ("tom", "thomas"), ("tommy", "thomas"), ("bill", "william"),
   ("billy", "william"), ("will", "william")]

/-- `LLMService._normalize_player_name` (llm_service.py lines 77-111):
lowercase, strip, drop the honorific prefixes, fold the first token
through the nickname table, rejoin with single spaces. -/
def normalizePlayerName (name : String) : String :=
  let n := pyTrim (pyLower name)
  -- the Python loop checks "mr " then "sir " in sequence
  let n := if pyStartsWith n ("mr ") then pyDrop 3 n else n
  let n := if pyStartsWith n ("sir ") then pyDrop 4 n else n
  let parts := pySplit n
  let parts :=
    match parts with
    | [] => []
    | p :: rest =>
      (match (nameVariations.find? (fun kv => kv.1 == p)).map Prod.snd with
       | some v => v
       | none => p) :: rest
  String.intercalate (" ") parts

/-- `KNOWN_JOURNALISTS` (llm_service.py lines 18-25). -/
def KNOWN_JOURNALISTS : List String :=
  ["Paul O Keefe", "Alasdair Gold", "Fabrizio Romano", "David Ornstein",
   "Dan Kilpatrick", "Charlie Eccleshare", "Jack Pitt-Brooke", "Matt Law",
   "Jonathan Veal", "Tom Barclay", "Mike McGrath", "John Percy",
   "Simon Stone", "James Ducker", "Jason Burt", "Sam Wallace",
   "Miguel Delaney", "Melissa Reddy", "James Olley", "Rob Dorsett",
   "Lyall Thomas", "Pete O'Rourke"]

/-- A related-club entry: a JSON dict whose `name`/`role` keys may be
absent (the merge reads them with `c.get('name', '')` / `c.get('role', '')`). -/
structure Club where
  name : Option String
  role : Option String
deriving DecidableEq, Repr

/-- The key used by the club-merge dict comprehension
(llm_service.py lines 344-347): `(c.get('name', ''), c.get('role', ''))`. -/
def keyOf (c : Club) : String × String :=
  (c.name.getD (""), c.role.getD (""))

/-- A timeline-event dict suggested by the oracle (`timeline` field of the
detailed analysis): free-shape fields that the merge passes through. -/
structure EventDict where
  event_type : Option String
  details : Option String
  confidence : Option Nat
deriving DecidableEq, Repr

/-- A stored timeline entry.  `_update_player_data` writes exactly two
shapes: `{"event": s, "date": d, "news_ids": ids}` for a string event, and
`{**event, "date": d, "news_ids": ids}` for a dict event. -/
inductive TLItem where
  | fromStr (event : String) (date : String) (news_ids : List String)
  | fromDict (d : EventDict) (date : String) (news_ids : List String)
deriving DecidableEq, Repr

/-- The `date` stamp carried by a stored timeline entry. -/
def TLItem.date : TLItem → String
  | .fromStr _ d _ => d
  | .fromDict _ d _ => d

/-- The `news_ids` provenance list carried by a stored timeline entry. -/
def TLItem.newsIds : TLItem → List String
  | .fromStr _ _ ids => ids
  | .fromDict _ _ ids => ids

/-- A persisted PlayerLink record (`data/links/player_{id}.json`).
`transfer_status`/`direction` may be absent from a stored dict, hence
`Option`; an absent `timeline`/`related_clubs` behaves exactly like `[]`
under the merge's `setdefault`/`get(..., [])`, so both are plain lists. -/
structure PlayerData where
  player_id : Nat
  canonical_name : String
  transfer_status : Option String
  direction : Option String
  timeline : List TLItem
  related_clubs : List Club
deriving DecidableEq, Repr

/-- The `timeline` field of an oracle delta: the source branches on
`isinstance(..., list)` then `isinstance(..., dict)`; any other value
(in particular a bare string) falls through both branches. -/
inductive TLSugg where
  | str (s : String)
  | dict (d : EventDict)
  | list (items : List (Sum String EventDict))
deriving DecidableEq, Repr

/-- A related-club suggestion: a bare string or an explicit dict. -/
inductive ClubSugg where
  | str (s : String)
  | dict (c : Club)
deriving DecidableEq, Repr

/-- A FactDelta: the dict returned by the detailed GPT analysis, with
every field optional (`'field' in new` guards each merge rule). -/
structure Delta where
  timeline : Option TLSugg
  transfer_status : Option String
  direction : Option String
  related_clubs : Option (List ClubSugg)
deriving DecidableEq, Repr

/-- `status_levels.get(s, 0)` with the table of llm_service.py
lines 313-318. -/
def statusLevel (s : String) : Nat :=
  if s = ("hearsay" : String) then 0
  else if s = ("rumors" : String) then 1
  else if s = ("developing" : String) then 2
  else if s = ("here we go!" : String) then 3
  else 0

/-- The four recognized transfer statuses, in ascending rank order. -/
def knownStatuses : List String :=
  ["hearsay", "rumors", "developing", "here we go!"]

/-- One list element of a delta's `timeline` list becomes a stored entry
stamped with the current time and the provenance news id
(llm_service.py lines 289-302). -/
def mkEventFromItem (now newsId : String) : Sum String EventDict → TLItem
  | .inl s => .fromStr s now [newsId]
  | .inr d => .fromDict d now [newsId]

/-- The timeline entries appended by one merge (llm_service.py
lines 285-309).  A bare-string suggestion matches neither `isinstance`
branch and contributes nothing. -/
def timelineAdditions (now newsId : String) : Option TLSugg → List TLItem
  | none => []
  | some (.str _) => []
  | some (.dict d) => [.fromDict d now [newsId]]
  | some (.list items) => items.map (mkEventFromItem now newsId)

/-- Normalization of one club suggestion (llm_service.py lines 333-341):
a bare string becomes `{"name": s, "role": "interested"}`. -/
def normClub : ClubSugg → Club
  | .str s => { name := some s, role := some ("interested" : String) }
  | .dict c => c

/-- First-occurrence deduplication of a list (the key order of a Python
dict built from a sequence of insertions). -/
def firstOcc {α : Type} [DecidableEq α] : List α → List α
  | [] => []
  | a :: t => a :: (firstOcc t).filter (fun x => x ≠ a)

/-- The last element of `l` whose club key is `k` (the value a Python
dict comprehension keeps for key `k`). -/
def lastVal (k : String × String) (l : List Club) : Option Club :=
  (l.filter (fun c => keyOf c = k)).getLast?

/-- The club list produced by
`list({(c.get('name',''), c.get('role','')): c for c in l}.values())`
(llm_service.py lines 344-347): keys in first-occurrence order, each
mapped to the last value inserted for that key. -/
def dedupClubs (l : List Club) : List Club :=
  (firstOcc (l.map keyOf)).filterMap (fun k => lastVal k l)

/-- `LLMService._update_player_data` (llm_service.py lines 275-349):
fold one delta into a player record.  `now` stands for the
`datetime.now().isoformat()` stamp. -/
def updatePlayerData (current : PlayerData) (new : Delta)
    (newsId now : String) : PlayerData :=
  -- result.setdefault('transfer_status', 'hearsay')
  let ts := current.transfer_status.getD ("hearsay")
  -- timeline append (lines 285-309)
  let timeline := current.timeline ++ timelineAdditions now newsId new.timeline
  -- monotonic status promotion (lines 311-323)
  let ts' :=
    match new.transfer_status with
    | some s => if statusLevel ts < statusLevel s then s else ts
    | none => ts
  -- direction: last write wins (lines 325-327)
  let dir :=
    match new.direction with
    | some d => some d
    | none => current.direction
  -- related clubs (lines 329-347)
  let clubs :=
    match new.related_clubs with
    | some cs => dedupClubs (current.related_clubs ++ cs.map normClub)
    | none => current.related_clubs
  { current with
      transfer_status := some ts'
      direction := dir
      timeline := timeline
      related_clubs := clubs }

/-! ## The fuzzy name matcher and the external player search
(`backend/football_api.py`) -/

/-- The name triple the scorer reads from an API player dict:
`get('player_name', '')`, `get('firstname') or ''`, `get('lastname') or ''`. -/
structure NameInfo where
  player_name : String
  firstname : Option String
  lastname : Option String
deriving DecidableEq, Repr

/-- `SimpleFootballAPI._score_player_match_v2` (football_api.py
lines 348-408), with scores in hundredths (1.0 = 100, 0.6 = 60, ...).
The empty-parts arm is unreachable through `search_player` (which never
scores when the cleaned query has no token); CPython would raise an
`IndexError` there. -/
def scoreV2 (searchName : String) (p : NameInfo) : Nat :=
  let apiName := pyLower p.player_name
  let apiFirst := pyLower (p.firstname.getD (""))
  let apiLast := pyLower (p.lastname.getD (""))
  let s := pyLower searchName
  let parts := pySplit s
  if s = apiName then 100
  else
    match parts with
    | [] => 0
    | [t] =>
      if t = apiLast then 80
      else if t = apiFirst then 70
      else if pyIn t apiLast || pyIn apiLast t then 40
      else if pyIn t apiFirst || pyIn apiFirst t then 30
      else 0
    | sf :: r1 :: rs =>
      let sl := (r1 :: rs).getLastD sf
      let lastScore :=
        if sl = apiLast then 60
        else if pyIn sl apiLast || pyIn apiLast sl then 30
        else 0
      let firstScore :=
        if sf = apiFirst then 40
        else if sf.length = 1 ∧ pyStartsWith apiFirst sf then 35
        else if sf ≠ ("" : String) ∧ apiFirst ≠ ("" : String) ∧
                pyFront sf = pyFront apiFirst then 20
        else if pyIn sf apiFirst || pyIn apiFirst sf then 10
        else 0
      min 100 (lastScore + firstScore)

/-- Name cleaning in `search_player` (football_api.py line 273):
keep alphabetic characters and spaces. -/
def cleanName (s : String) : String :=
  String.mk (s.toList.filter (fun c => c.isAlpha || c == ' '))

/-- The variant set of `search_player` as a function of the cleaned name
and its token list (football_api.py lines 276-302): every candidate term
is added only when it has at least 4 characters.  The Python `set` is
modelled as an insertion-ordered deduplicated list. -/
def variantsOfParts (clean : String) : List String → List String
  | p0 :: p1 :: rest =>
    let allParts := p0 :: p1 :: rest
    let fullName := String.join allParts
    let lastPart := (p1 :: rest).getLastD p1
    let middles := (allParts.drop 1).dropLast
    firstOcc
      ((if 4 ≤ fullName.length then [fullName] else []) ++
       (if 4 ≤ p0.length then [p0] else []) ++
       (if 4 ≤ lastPart.length then [lastPart] else []) ++
       (if 2 < allParts.length then
          middles.filter (fun p => 4 ≤ p.length) else []))
  | _ => if 4 ≤ clean.length then [clean] else []

/-- The search variants built by `search_player` (football_api.py
lines 272-306). -/
def searchVariants (name : String) : List String :=
  let clean := cleanName name
  variantsOfParts clean (pySplit clean)

/-- One result entry built by `search_player`. -/
structure SearchResult where
  id : Nat
  name : String
  firstname : Option String
  lastname : Option String
  team : Option Nat
  position : Option String
  match_score : Nat
deriving DecidableEq, Repr

/-- One raw player entry of the v2 search endpoint response. -/
structure ApiPlayer where
  player_id : Nat
  player_name : String
  firstname : Option String
  lastname : Option String
  position : Option String
deriving DecidableEq, Repr

/-- One squad-member entry of the `players/squads` endpoint response. -/
structure SquadApiPlayer where
  id : Nat
  name : String
  firstname : Option String
  lastname : Option String
  position : Option String
  photo : Option String
deriving DecidableEq, Repr

/-- The two football-API endpoints `search_player` consults, as pure
functions of the query. -/
structure ApiEnv where
  squads : Nat → List SquadApiPlayer
  v2search : String → List ApiPlayer

/-- One iteration of the inner result loop of `search_player`
(football_api.py lines 315-334): skip players already seen, score the
candidate, and keep it only when the score is strictly above 0.6. -/
def searchStep (name : String) (acc : List Nat × List SearchResult)
    (p : ApiPlayer) : List Nat × List SearchResult :=
  if p.player_id ∈ acc.1 then acc
  else
    let seen := acc.1 ++ [p.player_id]
    let score := scoreV2 name ⟨p.player_name, p.firstname, p.lastname⟩
    if 60 < score then
      (seen, acc.2 ++
        [{ id := p.player_id, name := p.player_name,
           firstname := p.firstname, lastname := p.lastname,
           team := none, position := p.position,
           match_score := score }])
    else (seen, acc.2)

/-- The accumulation loop over search variants (football_api.py
lines 309-334): per-variant API call, global `seen_players`
deduplication. -/
def searchFold (api : ApiEnv) (name : String) :
    List String → List Nat × List SearchResult → List Nat × List SearchResult
  | [], acc => acc
  | term :: rest, acc =>
    searchFold api name rest ((api.v2search term).foldl (searchStep name) acc)

/-- Stable insertion of one result into a list already sorted by
descending `match_score`: the new element goes before the first element
whose score is not larger, so earlier-collected results keep their
relative order among equal scores. -/
def insertByScore (r : SearchResult) : List SearchResult → List SearchResult
  | [] => [r]
  | x :: t =>
    if x.match_score ≤ r.match_score then r :: x :: t
    else x :: insertByScore r t

/-- Python's stable `results.sort(key=lambda x: x.match_score,
reverse=True)` (football_api.py line 337): a stable sort by descending
score. -/
def sortByScoreDesc (l : List SearchResult) : List SearchResult :=
  l.foldr insertByScore []

/-- `SimpleFootballAPI.search_player` (football_api.py lines 230-346):
optional squad short-cut (threshold 0.5), then the variant search with
threshold 0.6, sorted best-first. -/
def searchPlayer (api : ApiEnv) (name : String) (teamId : Option Nat) :
    List SearchResult :=
  let name := pyTrim name
  let squadHit : Option SearchResult :=
    match teamId with
    | some tid =>
      ((api.squads tid).find? (fun pl =>
          50 < scoreV2 name ⟨pl.name, pl.firstname, pl.lastname⟩)).map
        (fun pl =>
          { id := pl.id, name := pl.name, firstname := pl.firstname,
            lastname := pl.lastname, team := some tid,
            position := pl.position,
            match_score := scoreV2 name ⟨pl.name, pl.firstname, pl.lastname⟩ })
    | none => none
  match squadHit with
  | some r => [r]
  | none =>
    let results := (searchFold api name (searchVariants name) ([], [])).2
    let sorted := sortByScoreDesc results
    sorted.filter (fun r => 60 < r.match_score)

/-! ## Identity resolution (`LLMService._get_player_id`) -/

/-- Stage 1 of `_get_player_id` (llm_service.py lines 117-126): scan the
persisted link records for a normalized-name equality. -/
def findLink (store : List PlayerData) (nn : String) : Option Nat :=
  (store.find? (fun r => normalizePlayerName r.canonical_name == nn)).map
    (fun r => r.player_id)

/-- Stage 2 (llm_service.py lines 128-131): the manual mapping table,
name → id. -/
def findMapping (maps : List (String × Nat)) (nn : String) : Option Nat :=
  (maps.find? (fun m => normalizePlayerName m.1 == nn)).map (fun m => m.2)

/-- Stage 3 (llm_service.py lines 133-140): the locally stored current
squad, compared by normalized name. -/
def findSquad (squad : List (String × Nat)) (nn : String) : Option Nat :=
  (squad.find? (fun p => normalizePlayerName p.1 == nn)).map (fun p => p.2)

/-- `LLMService._get_player_id` (llm_service.py lines 113-147): the four
sources in order, short-circuiting; the external search is called with
the raw (unnormalized) name and no team id, and its first result wins. -/
def getPlayerId (store : List PlayerData) (maps : List (String × Nat))
    (squad : List (String × Nat)) (api : ApiEnv) (name : String) :
    Option Nat :=
  let nn := normalizePlayerName name
  match findLink store nn with
  | some pid => some pid
  | none =>
    match findMapping maps nn with
    | some pid => some pid
    | none =>
      match findSquad squad nn with
      | some pid => some pid
      | none => ((searchPlayer api name none).head?).map (fun r => r.id)

/-! ## The extraction boundary (`LLMService._analyze_with_gpt4`) -/

/-- One player mention in the initial analysis: `{"name": ...,
"tottenham_role": ...}`; the role may be absent or empty. -/
structure Mention where
  name : String
  tottenham_role : Option String
deriving DecidableEq, Repr

/-- Python truthiness of the `tottenham_role` value
(`if not player.get('tottenham_role'): continue`). -/
def roleTruthy (r : Option String) : Bool :=
  match r with
  | some s => s ≠ ("" : String)
  | none => false

/-- The dict shape consumed from the initial analysis; a parsed response
without a `players` key reads as `players = []`
(`initial_analysis.get('players', [])`). -/
structure AnalysisResult where
  players : List Mention
  error : Option String
deriving DecidableEq, Repr

/-- The outcome of the OpenAI chat call: the response text, or a raised
exception (network failure, API error, ...). -/
inductive OracleOutcome where
  | ok (text : String)
  | exn (msg : String)
deriving DecidableEq, Repr

/-- `LLMService._analyze_with_gpt4` (llm_service.py lines 213-236).
`parse` stands for `json.loads` plus shape reading, returning `none` on a
`JSONDecodeError`.  Both failure branches return a dict carrying an
`error` field and an empty `players` list; the function itself is total
(it never propagates the failure). -/
def analyzeWithGpt4 (parse : String → Option AnalysisResult)
    (outcome : OracleOutcome) : AnalysisResult :=
  match outcome with
  | .exn e => { players := [], error := some e }
  | .ok text =>
    match parse text with
    | some r => r
    | none => { players := [], error := some ("Invalid response format") }

/-! ## The per-item player loops of the two orchestrator entry points -/

/-- Read `data/links/player_{pid}.json` from the link store. -/
def storeRead (store : List PlayerData) (pid : Nat) : Option PlayerData :=
  store.find? (fun r => r.player_id == pid)

/-- Write `data/links/player_{pid}.json`: replace the record if present,
create it otherwise. -/
def storeWrite (store : List PlayerData) (pid : Nat) (d : PlayerData) :
    List PlayerData :=
  if (store.find? (fun r => r.player_id == pid)).isSome then
    store.map (fun r => if r.player_id == pid then d else r)
  else store ++ [d]

/-- The fresh record created for a previously unseen player
(llm_service.py lines 484-490 / 594-600): no `direction` key. -/
def freshRecord (pid : Nat) (name : String) : PlayerData :=
  { player_id := pid, canonical_name := name,
    transfer_status := some ("hearsay"), direction := none,
    timeline := [], related_clubs := [] }

/-- The per-player loop of `process_pending_news` (llm_service.py
lines 462-507): skip mentions without a truthy `tottenham_role`, resolve
the id (consulting the live link store), load or initialize the record,
merge the detailed analysis, and persist.  There is no journalist check
on this path.  `detailed` stands for the detailed GPT analysis as a
function of the current record (the prompt embeds it); `_ensure_player_stats`
only writes stats files, never link records, and is omitted.  Returns the
final link store and the list of link-record writes. -/
def processPlayersPending (maps : List (String × Nat))
    (squad : List (String × Nat)) (api : ApiEnv)
    (detailed : PlayerData → Delta) (newsId now : String) :
    List Mention → List PlayerData → List PlayerData × List (Nat × PlayerData)
  | [], store => (store, [])
  | p :: rest, store =>
    if roleTruthy p.tottenham_role then
      match getPlayerId store maps squad api p.name with
      | none => processPlayersPending maps squad api detailed newsId now rest store
      | some pid =>
        let playerData := (storeRead store pid).getD (freshRecord pid p.name)
        let updated := updatePlayerData playerData (detailed playerData) newsId now
        let store := storeWrite store pid updated
        let (store, muts) :=
          processPlayersPending maps squad api detailed newsId now rest store
        (store, (pid, updated) :: muts)
    else processPlayersPending maps squad api detailed newsId now rest store

/-- The per-player loop of `process_news_file` (llm_service.py
lines 558-619): same pipeline, but a mention whose name is in
`KNOWN_JOURNALISTS` is skipped before resolution.  When resolution fails
this path calls `self.football_api.search_players(...)`, a method that
does not exist on `SimpleFootballAPI` — CPython raises `AttributeError`,
which escapes the per-player loop; that arm is the `Except.error` case. -/
def processPlayersNF (maps : List (String × Nat))
    (squad : List (String × Nat)) (api : ApiEnv)
    (detailed : PlayerData → Delta) (newsId now : String) :
    List Mention → List PlayerData →
    Except String (List PlayerData × List (Nat × PlayerData))
  | [], store => .ok (store, [])
  | p :: rest, store =>
    if roleTruthy p.tottenham_role then
      if p.name ∈ KNOWN_JOURNALISTS then
        processPlayersNF maps squad api detailed newsId now rest store
      else
        match getPlayerId store maps squad api p.name with
        | none => .error ("AttributeError: search_players")
        | some pid =>
          let playerData := (storeRead store pid).getD (freshRecord pid p.name)
          let updated := updatePlayerData playerData (detailed playerData) newsId now
          let store := storeWrite store pid updated
          match processPlayersNF maps squad api detailed newsId now rest store with
          | .error e => .error e
          | .ok (store, muts) => .ok (store, (pid, updated) :: muts)
    else processPlayersNF maps squad api detailed newsId now rest store

/-! ## The batch loop of `process_pending_news` -/

/-- The outcome of one iteration body: the body ran to completion, or an
exception was raised somewhere inside it, leaving the state it had
reached (Python exceptions do not roll anything back). -/
inductive ItemOutcome (σ : Type) where
  | ok (s : σ)
  | failed (s : σ)

/-- The state an item body leaves behind, completed or not. -/
def ItemOutcome.state {σ : Type} : ItemOutcome σ → σ
  | .ok s => s
  | .failed s => s

/-- Whether the item body ran to completion. -/
def ItemOutcome.completed {σ : Type} : ItemOutcome σ → Bool
  | .ok _ => true
  | .failed _ => false

/-- The `for news_file in unprocessed: try: ... except: log; continue`
loop of `process_pending_news` (llm_service.py lines 430-516).  `body`
is the whole try-block for one item (load, scrape, extract, per-player
loop, mark processed), any step of which may raise.  Returns the final
state and, per item in order, whether that item's body completed. -/
def runBatch {ι σ : Type} (body : ι → σ → ItemOutcome σ) :
    List ι → σ → σ × List Bool
  | [], s => (s, [])
  | i :: rest, s =>
    let out := body i s
    let (sFinal, results) := runBatch body rest out.state
    (sFinal, out.completed :: results)

/-! ## Lemmas about first-occurrence deduplication -/

theorem mem_firstOcc {α : Type} [DecidableEq α] (a : α) :
    ∀ (l : List α), a ∈ firstOcc l ↔ a ∈ l := by
  intro l
  induction l using firstOcc.induct with
  | case1 => simp [firstOcc]
  | case2 b t ih =>
    rw [firstOcc]
    by_cases hab : a = b
    · subst hab; simp
    · simp only [List.mem_cons, ih, List.mem_filter, ne_eq, decide_eq_true_eq]
      constructor
      · rintro (h | ⟨h, _⟩)
        · exact absurd h hab
        · exact Or.inr h
      · rintro (h | h)
        · exact absurd h hab
        · exact Or.inr ⟨h, hab⟩

theorem nodup_firstOcc {α : Type} [DecidableEq α] :
    ∀ (l : List α), (firstOcc l).Nodup := by
  intro l
  induction l with
  | nil => simp [firstOcc]
  | cons b t ih =>
    rw [firstOcc]
    refine List.Nodup.cons ?_ (List.Nodup.filter _ ih)
    intro hmem
    have := (List.mem_filter.mp hmem).2
    simp at this

theorem firstOcc_of_nodup {α : Type} [DecidableEq α] :
    ∀ (l : List α), l.Nodup → firstOcc l = l := by
  intro l
  induction l with
  | nil => simp [firstOcc]
  | cons b t ih =>
    intro hnd
    rw [firstOcc, ih (List.nodup_cons.mp hnd).2]
    have hbt : b ∉ t := (List.nodup_cons.mp hnd).1
    have hf : t.filter (fun x => x ≠ b) = t := by
      apply List.filter_eq_self.mpr
      intro x hx
      simp only [ne_eq, decide_eq_true_eq]
      intro hxb; exact hbt (hxb ▸ hx)
    rw [hf]

theorem filter_firstOcc {α : Type} [DecidableEq α] (p : α → Bool) :
    ∀ (l : List α), (firstOcc l).filter p = firstOcc (l.filter p) := by
  intro l
  induction l with
  | nil => simp [firstOcc]
  | cons b t ih =>
    rw [firstOcc, List.filter_cons]
    by_cases hb : p b
    · rw [if_pos hb, List.filter_cons, if_pos hb, firstOcc, ← ih,
          List.filter_filter, List.filter_filter]
      congr 1
      apply List.filter_congr
      intro x _
      rw [Bool.and_comm]
    · rw [if_neg hb, List.filter_cons, if_neg hb, ← ih,
          List.filter_filter]
      apply List.filter_congr
      intro x _
      cases hpx : p x with
      | false => simp [hpx]
      | true =>
        have hxb : x ≠ b := fun hxb => hb (hxb ▸ hpx)
        simp [hpx, hxb]

theorem firstOcc_append_absorb {α : Type} [DecidableEq α] :
    ∀ (xs ys : List α), (∀ y ∈ ys, y ∈ xs) →
      firstOcc (xs ++ ys) = firstOcc xs := by
  suffices H : ∀ (n : Nat) (xs ys : List α), xs.length ≤ n →
      (∀ y ∈ ys, y ∈ xs) → firstOcc (xs ++ ys) = firstOcc xs by
    intro xs ys h
    exact H xs.length xs ys (Nat.le_refl _) h
  intro n
  induction n with
  | zero =>
    intro xs ys hlen h
    have hxs : xs = [] := List.eq_nil_of_length_eq_zero (Nat.le_zero.mp hlen)
    subst hxs
    have : ys = [] := List.eq_nil_iff_forall_not_mem.mpr (by simpa using h)
    simp [this]
  | succ n ih =>
    intro xs ys hlen h
    cases xs with
    | nil =>
      have : ys = [] := List.eq_nil_iff_forall_not_mem.mpr (by simpa using h)
      simp [this]
    | cons b t =>
      have hlen' : (t.filter (fun x => x ≠ b)).length ≤ n :=
        Nat.le_trans (List.length_filter_le _ _)
          (Nat.le_of_succ_le_succ hlen)
      have hsub : ∀ y ∈ ys.filter (fun x => x ≠ b),
          y ∈ t.filter (fun x => x ≠ b) := by
        intro y hy
        have hy' := List.mem_filter.mp hy
        have hyb : y ≠ b := by simpa using hy'.2
        have : y ∈ b :: t := h y hy'.1
        exact List.mem_filter.mpr
          ⟨(List.mem_cons.mp this).resolve_left hyb, by simpa using hyb⟩
      rw [List.cons_append, firstOcc, firstOcc, filter_firstOcc,
          filter_firstOcc, List.filter_append,
          ih (t.filter (fun x => x ≠ b)) (ys.filter (fun x => x ≠ b))
            hlen' hsub]

/-! ## Lemmas about the club-merge deduplication -/

theorem lastVal_key (k : String × String) (l : List Club) (c : Club)
    (h : lastVal k l = some c) : keyOf c = k := by
  have hmem := List.mem_of_mem_getLast? h
  exact of_decide_eq_true (List.mem_filter.mp hmem).2

theorem lastVal_isSome (k : String × String) (l : List Club) :
    (lastVal k l).isSome ↔ k ∈ l.map keyOf := by
  unfold lastVal
  rw [List.getLast?_isSome]
  constructor
  · intro h
    rcases List.exists_mem_of_ne_nil _ h with ⟨c, hc⟩
    have := List.mem_filter.mp hc
    exact List.mem_map.mpr ⟨c, this.1, of_decide_eq_true this.2⟩
  · intro h
    rcases List.mem_map.mp h with ⟨c, hc, hk⟩
    intro hnil
    have := List.filter_eq_nil_iff.mp hnil c hc
    simp [hk] at this

theorem lastVal_append (k : String × String) (X Y : List Club) :
    lastVal k (X ++ Y) = (lastVal k Y).or (lastVal k X) := by
  unfold lastVal
  rw [List.filter_append, List.getLast?_append]

theorem map_filterMap_eq_self {α β : Type} (g : β → α) (f : α → Option β) :
    ∀ (ks : List α), (∀ k ∈ ks, ∃ c, f k = some c ∧ g c = k) →
      (ks.filterMap f).map g = ks := by
  intro ks
  induction ks with
  | nil => simp
  | cons k t ih =>
    intro h
    obtain ⟨c, hfk, hgc⟩ := h k (List.mem_cons_self k t)
    rw [List.filterMap_cons, hfk, List.map_cons, hgc,
        ih (fun k' hk' => h k' (List.mem_cons_of_mem _ hk'))]

theorem map_keyOf_dedupClubs (l : List Club) :
    (dedupClubs l).map keyOf = firstOcc (l.map keyOf) := by
  unfold dedupClubs
  apply map_filterMap_eq_self
  intro k hk
  have hk' : k ∈ l.map keyOf := (mem_firstOcc k _).mp hk
  have hsome : (lastVal k l).isSome := (lastVal_isSome k l).mpr hk'
  rcases Option.isSome_iff_exists.mp hsome with ⟨c, hc⟩
  exact ⟨c, hc, lastVal_key k l c hc⟩

theorem filter_filterMap_key (k : String × String)
    (f : String × String → Option Club) :
    ∀ (ks : List (String × String)), ks.Nodup →
      (∀ k' c, k' ∈ ks → f k' = some c → keyOf c = k') →
      (ks.filterMap f).filter (fun c => keyOf c = k) =
        if k ∈ ks then (f k).toList else [] := by
  intro ks
  induction ks with
  | nil => simp
  | cons k' t ih =>
    intro hnd hkey
    have hnd' := List.nodup_cons.mp hnd
    have ihr := ih hnd'.2 (fun a c ha hc => hkey a c (List.mem_cons_of_mem _ ha) hc)
    by_cases hkk : k = k'
    · subst hkk
      cases hfk : f k with
      | none =>
        rw [List.filterMap_cons_none hfk, ihr, if_neg hnd'.1,
            if_pos (List.mem_cons_self k t)]
        rfl
      | some c =>
        have hc : keyOf c = k := hkey k c (List.mem_cons_self k t) hfk
        rw [List.filterMap_cons_some hfk, List.filter_cons,
            if_pos (by simp [hc]), ihr, if_neg hnd'.1,
            if_pos (List.mem_cons_self k t)]
        rfl
    · cases hfk : f k' with
      | none =>
        rw [List.filterMap_cons_none hfk, ihr]
        by_cases hkt : k ∈ t
        · rw [if_pos hkt, if_pos (List.mem_cons_of_mem _ hkt)]
        · rw [if_neg hkt, if_neg (by simp [hkk, hkt])]
      | some c =>
        have hc : keyOf c = k' := hkey k' c (List.mem_cons_self k' t) hfk
        rw [List.filterMap_cons_some hfk, List.filter_cons,
            if_neg (by simp only [hc, decide_eq_true_eq]; exact fun h => hkk h.symm),
            ihr]
        by_cases hkt : k ∈ t
        · rw [if_pos hkt, if_pos (List.mem_cons_of_mem _ hkt)]
        · rw [if_neg hkt, if_neg (by simp [hkk, hkt])]

theorem lastVal_dedupClubs (k : String × String) (l : List Club) :
    lastVal k (dedupClubs l) = lastVal k l := by
  have hfil := filter_filterMap_key k (fun k' => lastVal k' l)
    (firstOcc (l.map keyOf)) (nodup_firstOcc _)
    (fun k' c _ hc => lastVal_key k' l c hc)
  show (List.filter _ (dedupClubs l)).getLast? = lastVal k l
  unfold dedupClubs
  rw [hfil]
  by_cases hk : k ∈ firstOcc (l.map keyOf)
  · rw [if_pos hk]
    show (lastVal k l).toList.getLast? = lastVal k l
    cases hlv : lastVal k l with
    | none => rfl
    | some c => rfl
  · rw [if_neg hk]
    have : ¬ (lastVal k l).isSome := by
      rw [lastVal_isSome]
      exact fun hm => hk ((mem_firstOcc k _).mpr hm)
    cases hlv : lastVal k l with
    | none => rfl
    | some c => rw [hlv] at this; simp at this

theorem nodup_keys_dedupClubs (l : List Club) :
    ((dedupClubs l).map keyOf).Nodup := by
  rw [map_keyOf_dedupClubs]
  exact nodup_firstOcc _

theorem dedupClubs_idem (A B : List Club) :
    dedupClubs (dedupClubs (A ++ B) ++ B) = dedupClubs (A ++ B) := by
  have hkeys : (dedupClubs (A ++ B) ++ B).map keyOf =
      (dedupClubs (A ++ B)).map keyOf ++ B.map keyOf := by
    rw [List.map_append]
  have hsub : ∀ y ∈ B.map keyOf, y ∈ (dedupClubs (A ++ B)).map keyOf := by
    intro y hy
    rw [map_keyOf_dedupClubs]
    refine (mem_firstOcc y _).mpr ?_
    rw [List.map_append]
    exact List.mem_append_right _ hy
  have hfo : firstOcc ((dedupClubs (A ++ B) ++ B).map keyOf) =
      firstOcc ((A ++ B).map keyOf) := by
    rw [hkeys, firstOcc_append_absorb _ _ hsub, map_keyOf_dedupClubs,
        firstOcc_of_nodup _ (nodup_firstOcc _)]
  have hval : (fun k => lastVal k (dedupClubs (A ++ B) ++ B)) =
      fun k => lastVal k (A ++ B) := by
    funext k
    rw [lastVal_append, lastVal_dedupClubs, lastVal_append]
    cases lastVal k B <;> rfl
  show (firstOcc ((dedupClubs (A ++ B) ++ B).map keyOf)).filterMap
      (fun k => lastVal k (dedupClubs (A ++ B) ++ B)) = dedupClubs (A ++ B)
  rw [hfo, hval]
  rfl

/-! ## Projection lemmas for the merge -/

/-- The status `_update_player_data` stores, as a function of the current
(defaulted) status and the delta's suggestion. -/
def newStatus (t0 : String) (sug : Option String) : String :=
  match sug with
  | some s => if statusLevel t0 < statusLevel s then s else t0
  | none => t0

theorem transfer_status_update (cur : PlayerData) (d : Delta)
    (newsId now : String) :
    (updatePlayerData cur d newsId now).transfer_status =
      some (newStatus (cur.transfer_status.getD ("hearsay")) d.transfer_status) := rfl

theorem timeline_update (cur : PlayerData) (d : Delta) (newsId now : String) :
    (updatePlayerData cur d newsId now).timeline =
      cur.timeline ++ timelineAdditions now newsId d.timeline := rfl

theorem related_clubs_update (cur : PlayerData) (d : Delta)
    (newsId now : String) :
    (updatePlayerData cur d newsId now).related_clubs =
      match d.related_clubs with
      | some cs => dedupClubs (cur.related_clubs ++ cs.map normClub)
      | none => cur.related_clubs := rfl

theorem newStatus_le (t0 : String) (sug : Option String) :
    statusLevel t0 ≤ statusLevel (newStatus t0 sug) := by
  cases sug with
  | none => exact Nat.le_refl _
  | some s =>
    simp only [newStatus]
    by_cases h : statusLevel t0 < statusLevel s
    · rw [if_pos h]; exact Nat.le_of_lt h
    · rw [if_neg h]

theorem newStatus_idem (t0 : String) (sug : Option String) :
    newStatus (newStatus t0 sug) sug = newStatus t0 sug := by
  cases sug with
  | none => rfl
  | some s =>
    simp only [newStatus]
    by_cases h : statusLevel t0 < statusLevel s
    · rw [if_pos h, if_neg (Nat.lt_irrefl _)]
    · rw [if_neg h, if_neg h]

/-! ## Claim theorems -/

/-- C1: for a record whose `transfer_status` is one of the four known
statuses and any delta, the merged record's status rank never drops below
the input rank; a suggested status replaces the current one exactly when
its rank (under the code's `status_levels.get(_, 0)` ranking) is strictly
greater, and an equal or lower suggestion leaves the status unchanged —
silently, the merge being a total function. -/
theorem c1_status_monotonic_promotion (cur : PlayerData) (s0 : String)
    (h1 : cur.transfer_status = some s0) (_h2 : s0 ∈ knownStatuses)
    (d : Delta) (newsId now : String) :
    statusLevel s0 ≤ statusLevel
        (((updatePlayerData cur d newsId now).transfer_status).getD ("hearsay"))
    ∧ (∀ s, d.transfer_status = some s →
        (updatePlayerData cur d newsId now).transfer_status =
          some (if statusLevel s0 < statusLevel s then s else s0))
    ∧ (d.transfer_status = none →
        (updatePlayerData cur d newsId now).transfer_status = some s0) := by
  have he := transfer_status_update cur d newsId now
  rw [h1] at he
  simp only [Option.getD_some] at he
  refine ⟨?_, ?_, ?_⟩
  · rw [he, Option.getD_some]
    exact newStatus_le s0 d.transfer_status
  · intro s hs
    rw [he, hs]
    rfl
  · intro hs
    rw [he, hs]
    rfl

/-- Witness for C1: a record at `developing` receiving a `hearsay`
suggestion keeps status `developing`. -/
theorem c1_witness :
    (updatePlayerData
        { player_id := 1, canonical_name := "A B",
          transfer_status := some ("developing"), direction := none,
          timeline := [], related_clubs := [] }
        { timeline := none, transfer_status := some ("hearsay"),
          direction := none, related_clubs := none }
        ("r-1") ("t1")).transfer_status =
      some (if statusLevel ("developing") < statusLevel ("hearsay")
            then ("hearsay") else ("developing")) :=
  ((c1_status_monotonic_promotion _ ("developing") rfl (by decide) _
    ("r-1") ("t1")).2.1 ("hearsay") rfl)

/-- C10: a suggested status outside the four known statuses is ranked 0
by `status_levels.get(_, 0)`, never strictly above the current known
status, and is therefore silently discarded: the record keeps its
current status, with no error (the merge is total). -/
theorem c10_unknown_status_discarded (cur : PlayerData) (s0 : String)
    (h1 : cur.transfer_status = some s0) (_h2 : s0 ∈ knownStatuses)
    (s : String) (hs : s ∉ knownStatuses)
    (tl : Option TLSugg) (dir : Option String)
    (rc : Option (List ClubSugg)) (newsId now : String) :
    (updatePlayerData cur
        { timeline := tl, transfer_status := some s, direction := dir,
          related_clubs := rc } newsId now).transfer_status = some s0 := by
  have hlvl : statusLevel s = 0 := by
    unfold statusLevel
    have n1 : s ≠ ("hearsay" : String) := fun h => hs (by rw [h]; decide)
    have n2 : s ≠ ("rumors" : String) := fun h => hs (by rw [h]; decide)
    have n3 : s ≠ ("developing" : String) := fun h => hs (by rw [h]; decide)
    have n4 : s ≠ ("here we go!" : String) := fun h => hs (by rw [h]; decide)
    rw [if_neg n1, if_neg n2, if_neg n3, if_neg n4]
  have he := transfer_status_update cur
    { timeline := tl, transfer_status := some s, direction := dir,
      related_clubs := rc } newsId now
  rw [h1] at he
  simp only [Option.getD_some] at he
  rw [he]
  show some (newStatus s0 (some s)) = some s0
  simp only [newStatus]
  rw [hlvl, if_neg (Nat.not_lt_zero _)]

/-- Witness for C10: the unrecognized literal `"confirmed"` does not
replace a current `"hearsay"`. -/
theorem c10_witness :
    (updatePlayerData
        { player_id := 1, canonical_name := "A B",
          transfer_status := some ("hearsay"), direction := none,
          timeline := [], related_clubs := [] }
        { timeline := none, transfer_status := some ("confirmed"),
          direction := none, related_clubs := none }
        ("r-1") ("t1")).transfer_status = some ("hearsay") :=
  c10_unknown_status_discarded _ ("hearsay") rfl (by decide) ("confirmed")
    (by decide) none none none ("r-1") ("t1")

/-- C2: merging the same delta with the same provenance news id twice
yields the same `transfer_status` and the same `related_clubs` list as
merging it once (whatever the two wall-clock stamps); only the timeline
differs between the two results. -/
theorem c2_merge_idempotent_status_clubs (cur : PlayerData) (d : Delta)
    (newsId now1 now2 : String) :
    (updatePlayerData (updatePlayerData cur d newsId now1) d newsId now2).transfer_status
      = (updatePlayerData cur d newsId now1).transfer_status
    ∧ (updatePlayerData (updatePlayerData cur d newsId now1) d newsId now2).related_clubs
      = (updatePlayerData cur d newsId now1).related_clubs := by
  constructor
  · simp only [transfer_status_update, Option.getD_some]
    rw [newStatus_idem]
  · simp only [related_clubs_update]
    cases hrc : d.related_clubs with
    | none => rfl
    | some cs =>
      show dedupClubs
          (dedupClubs (cur.related_clubs ++ cs.map normClub) ++ cs.map normClub)
        = dedupClubs (cur.related_clubs ++ cs.map normClub)
      exact dedupClubs_idem _ _

/-- A whole processing history folded into one record: each element is a
(delta, news id, timestamp) triple merged by `_update_player_data`. -/
def mergeAll (start : PlayerData) (ds : List (Delta × String × String)) :
    PlayerData :=
  ds.foldl (fun r x => updatePlayerData r x.1 x.2.1 x.2.2) start

theorem nodup_keys_update (cur : PlayerData) (d : Delta) (newsId now : String)
    (h : (cur.related_clubs.map keyOf).Nodup) :
    (((updatePlayerData cur d newsId now).related_clubs).map keyOf).Nodup := by
  rw [related_clubs_update]
  cases d.related_clubs with
  | none => exact h
  | some cs => exact nodup_keys_dedupClubs _

/-- C3: starting from a record whose related-clubs list has no two
entries with the same (name, role) key, any sequence of merges — with
club suggestions given as bare strings (defaulted to role `interested`)
or explicit pairs — yields a list with no two entries sharing a
(name, role) key. -/
theorem c3_related_clubs_nodup (start : PlayerData)
    (ds : List (Delta × String × String))
    (h : (start.related_clubs.map keyOf).Nodup) :
    (((mergeAll start ds).related_clubs).map keyOf).Nodup := by
  induction ds generalizing start with
  | nil => exact h
  | cons x rest ih =>
    exact ih (updatePlayerData start x.1 x.2.1 x.2.2)
      (nodup_keys_update start x.1 x.2.1 x.2.2 h)

/-- Witness for C3: a fresh record merged with a mixed string/dict club
delta has duplicate-free club keys. -/
theorem c3_witness :
    (((mergeAll (freshRecord 7 ("Mathys Tel"))
        [({ timeline := none, transfer_status := none, direction := none,
            related_clubs := some [ClubSugg.str ("Bayern Munich"),
              ClubSugg.dict ⟨some ("Bayern Munich"), some ("interested")⟩,
              ClubSugg.str ("Arsenal")] }, "r-1", "t1")]).related_clubs).map
        keyOf).Nodup :=
  c3_related_clubs_nodup _ _ (by decide)

/-- C5 counterexample: a delta whose `timeline` value is a bare string is
neither a list nor a dict, so `_update_player_data` appends nothing — the
suggestion is dropped instead of being coerced into a minimal event. -/
theorem c5_counterexample :
    (updatePlayerData (freshRecord 7 ("Mathys Tel"))
        { timeline := some (TLSugg.str ("Medical booked")),
          transfer_status := none, direction := none, related_clubs := none }
        ("r-9") ("t9")).timeline = [] := rfl

/-- C5 as amended: a dict timeline suggestion, or a list of dict/string
suggestions, is appended as events each stamped with the current time and
the one-element provenance list `[news id]`, the prior timeline surviving
unchanged as a prefix; a bare-string `timeline` value is silently ignored
(nothing is appended), not coerced into an event. -/
theorem c5_timeline_append_amended (cur : PlayerData) (nid now : String)
    (ts dir : Option String) (rc : Option (List ClubSugg)) :
    (∀ dd : EventDict,
      (updatePlayerData cur
          { timeline := some (TLSugg.dict dd), transfer_status := ts,
            direction := dir, related_clubs := rc } nid now).timeline
        = cur.timeline ++ [TLItem.fromDict dd now [nid]])
    ∧ (∀ items,
      (updatePlayerData cur
          { timeline := some (TLSugg.list items), transfer_status := ts,
            direction := dir, related_clubs := rc } nid now).timeline
        = cur.timeline ++ items.map (mkEventFromItem now nid))
    ∧ (∀ sugg : Option TLSugg, ∀ e ∈ timelineAdditions now nid sugg,
        e.date = now ∧ e.newsIds = [nid] ∧ nid ∈ e.newsIds ∧ e.newsIds ≠ [])
    ∧ (∀ s, (updatePlayerData cur
          { timeline := some (TLSugg.str s), transfer_status := ts,
            direction := dir, related_clubs := rc } nid now).timeline
        = cur.timeline) := by
  refine ⟨fun dd => ?_, fun items => ?_, fun sugg e he => ?_, fun s => ?_⟩
  · rw [timeline_update]; rfl
  · rw [timeline_update]; rfl
  · cases sugg with
    | none => simp [timelineAdditions] at he
    | some tl =>
      cases tl with
      | str s => simp [timelineAdditions] at he
      | dict d =>
        simp only [timelineAdditions, List.mem_singleton] at he
        subst he
        exact ⟨rfl, rfl, List.mem_singleton_self nid,
          by simp [TLItem.newsIds]⟩
      | list items =>
        simp only [timelineAdditions, List.mem_map] at he
        obtain ⟨item, _, rfl⟩ := he
        cases item with
        | inl s =>
          exact ⟨rfl, rfl, List.mem_singleton_self nid,
            by simp [mkEventFromItem, TLItem.newsIds]⟩
        | inr d =>
          exact ⟨rfl, rfl, List.mem_singleton_self nid,
            by simp [mkEventFromItem, TLItem.newsIds]⟩
  · rw [timeline_update]
    simp [timelineAdditions]

/-- Witness for the amended C5: a concrete dict suggestion is appended as
one event stamped with the given time and provenance. -/
theorem c5_witness :
    ((updatePlayerData (freshRecord 7 ("Mathys Tel"))
        { timeline := some (TLSugg.dict ⟨some ("bid"), some ("40m"), some 80⟩),
          transfer_status := none, direction := none, related_clubs := none }
        ("r-9") ("t9")).timeline
      = [] ++ [TLItem.fromDict ⟨some ("bid"), some ("40m"), some 80⟩
          ("t9") ["r-9"]])
    ∧ (TLItem.fromDict ⟨some ("bid"), some ("40m"), some 80⟩
        ("t9") ["r-9"]).newsIds = ["r-9"] :=
  ⟨(c5_timeline_append_amended (freshRecord 7 ("Mathys Tel")) ("r-9") ("t9")
      none none none).1 ⟨some ("bid"), some ("40m"), some 80⟩,
   ((c5_timeline_append_amended (freshRecord 7 ("Mathys Tel")) ("r-9") ("t9")
      none none none).2.2.1
      (some (TLSugg.dict ⟨some ("bid"), some ("40m"), some 80⟩))
      (TLItem.fromDict ⟨some ("bid"), some ("40m"), some 80⟩ ("t9") ["r-9"])
      (List.mem_singleton_self _)).2.1⟩

/-! ## C4: the fuzzy-match boundary -/

/-- The candidate of the spec's boundary test: firstname `Mathys`,
lastname `Tel`, no `player_name` key (which reads as the empty string). -/
def mathysTelNI : NameInfo := ⟨"", some ("Mathys"), some ("Tel")⟩

/-- A natural candidate with lastname `Jones`. -/
def johnJonesNI : NameInfo := ⟨"John Jones", some ("John"), some ("Jones")⟩

/-- A v2 search collaborator knowing only Mathys Tel, reachable through
the single valid variant `MTel` of the query `M. Tel`. -/
def mtelApi : ApiEnv :=
  ⟨fun _ => [],
   fun t => if t = ("MTel" : String) then
       [⟨270510, "Mathys Tel", some ("Mathys"), some ("Tel"), none⟩]
     else []⟩

/-- A v2 search collaborator answering the `Smith` variant with the
John Jones candidate. -/
def jsmithApi : ApiEnv :=
  ⟨fun _ => [],
   fun t => if t = ("Smith" : String) then
       [⟨999, "John Jones", some ("John"), some ("Jones"), none⟩]
     else []⟩

/-- C4 counterexample: the score of `"M. Tel"` against
{firstname Mathys, lastname Tel} is not 0.95: the 0.35
abbreviated-initial bonus requires a one-character first token and
`"m."` has two characters, so only the 0.2 first-initial bonus applies. -/
theorem c4_counterexample : ¬ (scoreV2 ("M. Tel") mathysTelNI = 95) := by
  rw [show scoreV2 ("M. Tel") mathysTelNI = 80 from rfl]
  decide

/-- C4 as amended: `"M. Tel"` scores 0.8 (0.6 exact-last-name + 0.2
first-initial) against the Mathys Tel candidate — above the 0.6
threshold, so the search resolves it (to id 270510 here); `"J. Smith"`
scores 0.2 against a John Jones candidate, below 0.6, and the search
yields no match. -/
theorem c4_fuzzy_boundary_amended :
    scoreV2 ("M. Tel") mathysTelNI = 80
    ∧ 60 < scoreV2 ("M. Tel") mathysTelNI
    ∧ (searchPlayer mtelApi ("M. Tel") none).head?.map (fun r => r.id)
        = some 270510
    ∧ scoreV2 ("J. Smith") johnJonesNI = 20
    ∧ searchPlayer jsmithApi ("J. Smith") none = [] :=
  ⟨rfl, by decide, rfl, rfl, rfl⟩

/-- C7: the extraction boundary absorbs failures — an oracle exception
and an unparsable response both yield a result whose `players` list is
empty, and `analyzeWithGpt4` is a total function (it cannot propagate
either failure). -/
theorem c7_extraction_never_raises (parse : String → Option AnalysisResult) :
    (∀ e, (analyzeWithGpt4 parse (OracleOutcome.exn e)).players = [])
    ∧ (∀ text, parse text = none →
        (analyzeWithGpt4 parse (OracleOutcome.ok text)).players = []) := by
  constructor
  · intro e
    rfl
  · intro text h
    simp only [analyzeWithGpt4, h]

/-- Witness for C7 at a parser that rejects everything. -/
theorem c7_witness :
    (analyzeWithGpt4 (fun _ => none) (OracleOutcome.exn ("boom"))).players = []
    ∧ (analyzeWithGpt4 (fun _ => none)
        (OracleOutcome.ok ("not json"))).players = [] :=
  ⟨(c7_extraction_never_raises (fun _ => none)).1 ("boom"),
   (c7_extraction_never_raises (fun _ => none)).2 ("not json") rfl⟩

/-! ## C8: resolver order, variant length floor, search threshold -/

theorem variantsOfParts_length (clean : String) :
    ∀ (parts : List String), ∀ t ∈ variantsOfParts clean parts,
      4 ≤ t.length := by
  intro parts
  have hsingle : ∀ t, t ∈ (if 4 ≤ clean.length then [clean] else []) →
      4 ≤ t.length := by
    intro t hf
    split at hf
    · next hlen => rw [List.mem_singleton.mp hf]; exact hlen
    · simp at hf
  cases parts with
  | nil =>
    intro t ht
    simp only [variantsOfParts] at ht
    exact hsingle t ht
  | cons p0 rest0 =>
    cases rest0 with
    | nil =>
      intro t ht
      simp only [variantsOfParts] at ht
      exact hsingle t ht
    | cons p1 rest =>
      intro t ht
      simp only [variantsOfParts] at ht
      have ht' := (mem_firstOcc t _).mp ht
      rw [List.mem_append, List.mem_append, List.mem_append] at ht'
      rcases ht' with ((hf | hf) | hf) | hf
      · split at hf
        · next hlen => rw [List.mem_singleton.mp hf]; exact hlen
        · simp at hf
      · split at hf
        · next hlen => rw [List.mem_singleton.mp hf]; exact hlen
        · simp at hf
      · split at hf
        · next hlen => rw [List.mem_singleton.mp hf]; exact hlen
        · simp at hf
      · split at hf
        · have := List.mem_filter.mp hf
          exact of_decide_eq_true this.2
        · simp at hf

theorem searchVariants_length (name : String) :
    ∀ t ∈ searchVariants name, 4 ≤ t.length := by
  intro t ht
  exact variantsOfParts_length (cleanName name) (pySplit (cleanName name)) t ht

theorem searchStep_snd_of_low (name : String) (p : ApiPlayer)
    (acc : List Nat × List SearchResult)
    (h : scoreV2 name ⟨p.player_name, p.firstname, p.lastname⟩ ≤ 60) :
    (searchStep name acc p).2 = acc.2 := by
  unfold searchStep
  by_cases hseen : p.player_id ∈ acc.1
  · rw [if_pos hseen]
  · rw [if_neg hseen]
    simp only
    rw [if_neg (by omega)]

theorem foldl_searchStep_snd_of_low (name : String) :
    ∀ (ps : List ApiPlayer) (acc : List Nat × List SearchResult),
      (∀ p ∈ ps, scoreV2 name ⟨p.player_name, p.firstname, p.lastname⟩ ≤ 60) →
      (ps.foldl (searchStep name) acc).2 = acc.2 := by
  intro ps
  induction ps with
  | nil => intro acc _; rfl
  | cons p rest ih =>
    intro acc h
    rw [List.foldl_cons,
        ih _ (fun q hq => h q (List.mem_cons_of_mem _ hq)),
        searchStep_snd_of_low name p acc (h p (List.mem_cons_self p rest))]

theorem searchFold_snd_of_low (api : ApiEnv) (name : String)
    (h : ∀ term, ∀ p ∈ api.v2search term,
      scoreV2 name ⟨p.player_name, p.firstname, p.lastname⟩ ≤ 60) :
    ∀ (terms : List String) (acc : List Nat × List SearchResult),
      (searchFold api name terms acc).2 = acc.2 := by
  intro terms
  induction terms with
  | nil => intro acc; rfl
  | cons term rest ih =>
    intro acc
    rw [searchFold, ih, foldl_searchStep_snd_of_low name _ acc (h term)]

theorem searchPlayer_empty_of_low (api : ApiEnv) (name : String)
    (h : ∀ term, ∀ p ∈ api.v2search term,
      scoreV2 (pyTrim name) ⟨p.player_name, p.firstname, p.lastname⟩ ≤ 60) :
    searchPlayer api name none = [] := by
  show (sortByScoreDesc
      (searchFold api (pyTrim name) (searchVariants (pyTrim name)) ([], [])).2).filter
      (fun r => 60 < r.match_score) = []
  rw [searchFold_snd_of_low api (pyTrim name) h]
  rfl

/-- C8: `_get_player_id` consults persisted links, the manual mapping
table, the local squad and the external fuzzy search in that fixed
order, returning at the first hit — a later source only matters when
every earlier source missed (the result is then literally the head of
the external search); every term the variant builder sends to the
external search is at least 4 characters long; and when no external
candidate scores above 0.6 the search returns no result and the resolver
yields `none`. -/
theorem c8_resolver_order_and_thresholds :
    (∀ (store : List PlayerData) (maps squad : List (String × Nat))
        (api : ApiEnv) (name : String) (pid : Nat),
        findLink store (normalizePlayerName name) = some pid →
        getPlayerId store maps squad api name = some pid)
    ∧ (∀ (store : List PlayerData) (maps squad : List (String × Nat))
        (api : ApiEnv) (name : String) (pid : Nat),
        findLink store (normalizePlayerName name) = none →
        findMapping maps (normalizePlayerName name) = some pid →
        getPlayerId store maps squad api name = some pid)
    ∧ (∀ (store : List PlayerData) (maps squad : List (String × Nat))
        (api : ApiEnv) (name : String) (pid : Nat),
        findLink store (normalizePlayerName name) = none →
        findMapping maps (normalizePlayerName name) = none →
        findSquad squad (normalizePlayerName name) = some pid →
        getPlayerId store maps squad api name = some pid)
    ∧ (∀ (store : List PlayerData) (maps squad : List (String × Nat))
        (api : ApiEnv) (name : String),
        findLink store (normalizePlayerName name) = none →
        findMapping maps (normalizePlayerName name) = none →
        findSquad squad (normalizePlayerName name) = none →
        getPlayerId store maps squad api name =
          ((searchPlayer api name none).head?).map (fun r => r.id))
    ∧ (∀ (name : String), ∀ t ∈ searchVariants name, 4 ≤ t.length)
    ∧ (∀ (store : List PlayerData) (maps squad : List (String × Nat))
        (api : ApiEnv) (name : String),
        findLink store (normalizePlayerName name) = none →
        findMapping maps (normalizePlayerName name) = none →
        findSquad squad (normalizePlayerName name) = none →
        (∀ term, ∀ p ∈ api.v2search term,
          scoreV2 (pyTrim name) ⟨p.player_name, p.firstname, p.lastname⟩ ≤ 60) →
        getPlayerId store maps squad api name = none) := by
  refine ⟨?_, ?_, ?_, ?_, searchVariants_length, ?_⟩
  · intro store maps squad api name pid h
    simp only [getPlayerId]
    rw [h]
  · intro store maps squad api name pid h1 h2
    simp only [getPlayerId]
    rw [h1, h2]
  · intro store maps squad api name pid h1 h2 h3
    simp only [getPlayerId]
    rw [h1, h2, h3]
  · intro store maps squad api name h1 h2 h3
    simp only [getPlayerId]
    rw [h1, h2, h3]
  · intro store maps squad api name h1 h2 h3 hlow
    simp only [getPlayerId]
    rw [h1, h2, h3, searchPlayer_empty_of_low api name hlow]
    rfl

/-- An external API with no data at all. -/
def emptyApi : ApiEnv := ⟨fun _ => [], fun _ => []⟩

/-- Witness for C8: a persisted link for Son Heung-min resolves from the
link store with every other source empty, and an unknown name resolves
to `none` when all sources miss. -/
theorem c8_witness :
    getPlayerId [freshRecord 186 ("Son Heung-min")] [] [] emptyApi
        ("Son Heung-min") = some 186
    ∧ getPlayerId [freshRecord 186 ("Son Heung-min")] [] [] emptyApi
        ("Unknown Person") = none :=
  ⟨(c8_resolver_order_and_thresholds).1 [freshRecord 186 ("Son Heung-min")]
      [] [] emptyApi ("Son Heung-min") 186 rfl,
   (c8_resolver_order_and_thresholds).2.2.2.2.2
      [freshRecord 186 ("Son Heung-min")] [] [] emptyApi ("Unknown Person")
      rfl rfl rfl (fun _term p hp => absurd hp (List.not_mem_nil p))⟩

/-! ## C6: the journalist denylist -/

/-- A link store holding a (mis)persisted record named after a
journalist. -/
def romanoStore : List PlayerData := [freshRecord 41 ("Fabrizio Romano")]

/-- A delta with no field set. -/
def emptyDelta : Delta := ⟨none, none, none, none⟩

/-- C6 counterexample: `process_pending_news` (llm_service.py
lines 462-507) applies no journalist denylist, so a news item whose only
mention is `"Fabrizio Romano"` — a `KNOWN_JOURNALISTS` entry — produces
one PlayerLink write when that name resolves (here through a persisted
link record): not every orchestrator entry point is protected. -/
theorem c6_counterexample :
    (processPlayersPending [] [] emptyApi (fun _ => emptyDelta)
        ("r-42") ("t0") [⟨"Fabrizio Romano", some ("current")⟩]
        romanoStore).2.length = 1 := rfl

/-- C6 as amended: the denylist holds on the `process_news_file` path —
when every extracted mention is a `KNOWN_JOURNALISTS` name, its player
loop performs zero PlayerLink mutations and leaves the store untouched;
`process_pending_news` performs no such check (see the counterexample). -/
theorem c6_denylist_in_process_news_file (maps squad : List (String × Nat))
    (api : ApiEnv) (detailed : PlayerData → Delta) (newsId now : String)
    (players : List Mention) (store : List PlayerData)
    (h : ∀ p ∈ players, p.name ∈ KNOWN_JOURNALISTS) :
    processPlayersNF maps squad api detailed newsId now players store
      = .ok (store, []) := by
  induction players with
  | nil => rfl
  | cons p rest ih =>
    have hp := h p (List.mem_cons_self p rest)
    have ihr := ih (fun q hq => h q (List.mem_cons_of_mem _ hq))
    unfold processPlayersNF
    by_cases hr : roleTruthy p.tottenham_role = true
    · rw [if_pos hr, if_pos hp]
      exact ihr
    · rw [if_neg hr]
      exact ihr

/-- Witness for the amended C6: the same journalist-only mention that
mutates the store through `process_pending_news` is filtered out by
`process_news_file`. -/
theorem c6_witness :
    processPlayersNF [] [] emptyApi (fun _ => emptyDelta) ("r-42") ("t0")
        [⟨"Fabrizio Romano", some ("current")⟩] romanoStore
      = .ok (romanoStore, []) :=
  c6_denylist_in_process_news_file [] [] emptyApi (fun _ => emptyDelta)
    ("r-42") ("t0") [⟨"Fabrizio Romano", some ("current")⟩] romanoStore
    (by decide)

/-! ## C9: single-item failure never aborts the batch -/

theorem runBatch_length {ι σ : Type} (body : ι → σ → ItemOutcome σ) :
    ∀ (items : List ι) (s : σ),
      (runBatch body items s).2.length = items.length := by
  intro items
  induction items with
  | nil => intro s; rfl
  | cons i rest ih =>
    intro s
    show ((runBatch body rest (body i s).state).1,
        (body i s).completed :: (runBatch body rest (body i s).state).2).2.length
      = rest.length + 1
    simp [ih]

theorem runBatch_append {ι σ : Type} (body : ι → σ → ItemOutcome σ) :
    ∀ (xs ys : List ι) (s : σ),
      runBatch body (xs ++ ys) s =
        ((runBatch body ys (runBatch body xs s).1).1,
         (runBatch body xs s).2 ++ (runBatch body ys (runBatch body xs s).1).2) := by
  intro xs
  induction xs with
  | nil =>
    intro ys s
    show runBatch body ys s = ((runBatch body ys s).1, (runBatch body ys s).2)
    rfl
  | cons i rest ih =>
    intro ys s
    show ((runBatch body (rest ++ ys) (body i s).state).1,
        (body i s).completed :: (runBatch body (rest ++ ys) (body i s).state).2)
      = _
    rw [ih ys (body i s).state]
    rfl

/-- C9: in the `process_pending_news` batch loop, every item's try-block
runs regardless of earlier outcomes: over `xs ++ ys` the loop records
one completion flag per item, and the tail `ys` is processed exactly as
it would be from the state the (possibly failing) prefix left behind — a
failed item is recorded and skipped, never aborting the run. -/
theorem c9_batch_failure_isolation {ι σ : Type}
    (body : ι → σ → ItemOutcome σ) (xs ys : List ι) (s : σ) :
    (runBatch body (xs ++ ys) s).2.length = xs.length + ys.length
    ∧ (runBatch body (xs ++ ys) s).2
        = (runBatch body xs s).2 ++ (runBatch body ys (runBatch body xs s).1).2 := by
  constructor
  · rw [runBatch_length, List.length_append]
  · rw [runBatch_append]

end N17
